import Mathlib

/-!
Verification of `src/generators/01-number/generatory.py`.

The source is a bounded counting generator and a driver:

```
def numbers_gen(n):
    num = 1
    while num <= n:
        print(f'yielding number: {num}')
        yield num
        num += 1

def main():
    for num in numbers_gen(20):
        print(f'number received: {num}')
        print()

if __name__ == '__main__':
    main()
```

We embed the generator as a state machine: a state holds the bound `n`,
the cursor `num` (the value the loop condition will test next; Python
assigns `num = 1` before the loop, and increments it after each `yield`),
and a flag `done` recording that the generator body has returned (a Python
generator that has returned raises `StopIteration` forever after).  One
call of `next()` on the generator is the function `genNext`, translated
line by line from the loop body.  Output and value hand-off are recorded
as explicit events so that their relative order is part of the model.
-/

/-- The line printed by the generator just before yielding `num`
(source line 4: `print(f'yielding number: {num}')`). -/
def yieldLine (num : Int) : String := "yielding number: " ++ toString num

/-- The line printed by the driver for each received `num`
(source line 11: `print(f'number received: {num}')`). -/
def recvLine (num : Int) : String := "number received: " ++ toString num

/-- State of the `numbers_gen` generator: the bound `n`, the cursor `num`
(the next value the loop condition `num <= n` will test), and whether the
generator body has returned. -/
structure Gen where
  n : Int
  num : Int
  done : Bool
deriving DecidableEq, Repr

/-- `numbers_gen(n)`: constructing the generator runs none of the body;
the state records `num = 1` (the first statement executed on the first
`next()`), and nothing has been printed. -/
def numbers_gen (n : Int) : Gen := { n := n, num := 1, done := false }

/-- One `next()` request on the generator: the lines it prints, the value
it yields (`none` = `StopIteration`, the normal end of the sequence), and
the state it suspends in.  Translated from source lines 3-6: if the body
has returned, `StopIteration` again; else test `num <= n`; if it holds,
print the yielding line and hand `num` over (the increment `num += 1`
happens on resumption, so the suspended state carries `num + 1` as the
next value to test); otherwise the body returns. -/
def genNext (g : Gen) : List String × Option Int × Gen :=
  if g.done then ([], none, g)
  else if g.num ≤ g.n then
    ([yieldLine g.num], some g.num, { g with num := g.num + 1 })
  else
    ([], none, { g with done := true })

/-- Observable events of a run: a line printed to standard output, or a
value handed from the producer to the consumer. -/
inductive Ev where
  | print (s : String)
  | handoff (v : Int)
deriving DecidableEq, Repr

/-- Iterating `k` `next()` requests from state `g`: all lines printed, all
values yielded, and the final state. -/
def iterateGen (g : Gen) : Nat → List String × List Int × Gen
  | 0 => ([], [], g)
  | k + 1 =>
    match genNext g with
    | (ps, r, g') =>
      match iterateGen g' k with
      | (qs, vs, g'') => (ps ++ qs, (match r with | some v => v :: vs | none => vs), g'')

/-- Number of values a non-returned state can still yield. -/
def remaining (g : Gen) : Nat := (g.n + 1 - g.num).toNat

/-- The ascending run `num, num + 1, ...` of length `k`. -/
def countUp (num : Int) : Nat → List Int
  | 0 => []
  | k + 1 => num :: countUp (num + 1) k

/-- All values the generator will yield from state `g` when driven to
exhaustion (see `genSeq_genNext`: this is exactly what repeated `next()`
requests return). -/
def genSeq (g : Gen) : List Int :=
  if g.done then [] else countUp g.num (remaining g)

/-- The event block one loop iteration of `main` produces for the value
`v`: the generator prints its yielding line and hands `v` over, then the
driver prints the received line and a blank line (source lines 10-12). -/
def driveBlock (v : Int) : List Ev :=
  [Ev.print (yieldLine v), Ev.handoff v, Ev.print (recvLine v), Ev.print ""]

/-- Auxiliary: the driver's event trace when the generator still has `k`
values starting at `num`. -/
def driveAux (num : Int) : Nat → List Ev
  | 0 => []
  | k + 1 => driveBlock num ++ driveAux (num + 1) k

/-- The full event trace of the driver loop `for num in numbers_gen(n)`
run on generator state `g` (see `drive_genNext`: the trace satisfies the
step equation of the loop, which requests values with `genNext` and prints
two lines per value). -/
def drive (g : Gen) : List Ev :=
  if g.done then [] else driveAux g.num (remaining g)

/-- The lines printed to standard output in an event trace. -/
def printedLines (es : List Ev) : List String :=
  es.filterMap (fun e => match e with | Ev.print s => some s | Ev.handoff _ => none)

/-- Standard output of running the program: `main()` iterates over
`numbers_gen(20)` (source lines 9-16). -/
def mainOutput : List String := printedLines (drive (numbers_gen 20))

/-- The generator's transition relation, one constructor per way a
`next()` request can go (body already returned; loop test succeeds and
`num` is printed and yielded; loop test fails and the body returns). -/
inductive Step : Gen → List String × Option Int × Gen → Prop where
  | finished (g : Gen) : g.done = true → Step g ([], none, g)
  | yield (g : Gen) : g.done = false → g.num ≤ g.n →
      Step g ([yieldLine g.num], some g.num, { g with num := g.num + 1 })
  | exhaust (g : Gen) : g.done = false → ¬ g.num ≤ g.n →
      Step g ([], none, { g with done := true })

/-- A complete record of `k` `next()` requests under the transition
relation `Step`: all printed lines, all yielded values, final state. -/
inductive RunN : Gen → Nat → List String × List Int × Gen → Prop where
  | zero (g : Gen) : RunN g 0 ([], [], g)
  | succYield {g g' g'' : Gen} {ps qs : List String} {v : Int} {vs : List Int} {k : Nat} :
      Step g (ps, some v, g') → RunN g' k (qs, vs, g'') →
      RunN g (k + 1) (ps ++ qs, v :: vs, g'')
  | succNone {g g' g'' : Gen} {ps qs : List String} {vs : List Int} {k : Nat} :
      Step g (ps, none, g') → RunN g' k (qs, vs, g'') →
      RunN g (k + 1) (ps ++ qs, vs, g'')

-- Sanity checks on small concrete inputs.
example : genSeq (numbers_gen 3) = [1, 2, 3] := by decide
example : genSeq (numbers_gen 0) = [] := by decide
example : iterateGen (numbers_gen 2) 3 =
    ([yieldLine 1, yieldLine 2], [1, 2], { n := 2, num := 3, done := true }) := by decide
example : drive (numbers_gen 1) =
    [Ev.print (yieldLine 1), Ev.handoff 1, Ev.print (recvLine 1), Ev.print ""] := by decide

/-! ## Connection lemmas: the fuel-based observers satisfy the step
equations of `genNext`, so they are exactly "iterate `next()` to
exhaustion". -/

lemma remaining_succ {g : Gen} (h : g.num ≤ g.n) :
    remaining g = remaining { g with num := g.num + 1 } + 1 := by
  simp only [remaining]
  omega

lemma remaining_zero {g : Gen} (h : ¬ g.num ≤ g.n) : remaining g = 0 := by
  simp only [remaining]
  omega

/-- `genSeq` satisfies the iteration equation of `genNext`: the value
sequence is what a `next()` request yields, followed by the sequence of
the state it leaves behind. -/
lemma genSeq_genNext (g : Gen) :
    genSeq g = match genNext g with
      | (_, some v, g') => v :: genSeq g'
      | (_, none, _) => [] := by
  by_cases hd : g.done
  · simp [genSeq, genNext, hd]
  · have hd' : g.done = false := by simpa using hd
    by_cases hle : g.num ≤ g.n
    · simp only [genNext, hd', Bool.false_eq_true, if_false, hle, if_true, genSeq]
      rw [remaining_succ hle]
      simp [countUp, remaining]
    · simp [genSeq, genNext, hd', hle, remaining_zero hle, countUp]

/-- `drive` satisfies the step equation of the driver loop: each request
is `genNext`; a yielded value `v` is handed off and answered with the
received line and a blank line, then the loop continues; on exhaustion
the loop body never runs again. -/
lemma drive_genNext (g : Gen) :
    drive g = match genNext g with
      | (ps, some v, g') =>
          ps.map Ev.print ++ Ev.handoff v :: Ev.print (recvLine v) :: Ev.print "" :: drive g'
      | (ps, none, _) => ps.map Ev.print := by
  by_cases hd : g.done
  · simp [drive, genNext, hd]
  · have hd' : g.done = false := by simpa using hd
    by_cases hle : g.num ≤ g.n
    · simp only [genNext, hd', Bool.false_eq_true, if_false, hle, if_true, drive]
      rw [remaining_succ hle]
      simp [driveAux, driveBlock, remaining]
    · simp [drive, genNext, hd', hle, remaining_zero hle, driveAux]

/-! ## Closed forms. -/

/-- `countUp num k` lists `num + i` for `i < k`. -/
lemma countUp_eq (k : Nat) (num : Int) :
    countUp num k = (List.range k).map (fun (i : Nat) => num + (i : Int)) := by
  induction k generalizing num with
  | zero => simp [countUp]
  | succ k ih =>
    rw [List.range_succ_eq_map]
    simp only [countUp, List.map_cons, List.map_map, ih (num + 1)]
    congr 1
    · simp
    · apply List.map_congr_left
      intro i _
      simp only [Function.comp_apply]
      omega

/-- The driver trace is the per-value blocks, one per remaining value. -/
lemma driveAux_eq (k : Nat) (num : Int) :
    driveAux num k = ((countUp num k).map driveBlock).flatten := by
  induction k generalizing num with
  | zero => simp [driveAux, countUp]
  | succ k ih => simp [driveAux, countUp, ih (num + 1)]

/-- The driver trace from any state is the concatenation of the blocks
for the values the generator will yield from that state. -/
lemma drive_eq_flatten (g : Gen) :
    drive g = ((genSeq g).map driveBlock).flatten := by
  by_cases hd : g.done
  · simp [drive, genSeq, hd]
  · have hd' : g.done = false := by simpa using hd
    simp [drive, genSeq, hd', driveAux_eq]

/-- The value sequence of a fresh producer, in closed form. -/
lemma genSeq_numbers_gen (n : Int) :
    genSeq (numbers_gen n) = (List.range n.toNat).map (fun (i : Nat) => 1 + (i : Int)) := by
  have : remaining (numbers_gen n) = n.toNat := by
    simp only [remaining, numbers_gen]
    omega
  simp only [genSeq, numbers_gen, Bool.false_eq_true, if_false] at *
  rw [this, countUp_eq]

/-- Membership in `genSeq` from a fresh producer is exactly the interval
`1 ≤ v ≤ n`. -/
lemma mem_genSeq (n v : Int) : v ∈ genSeq (numbers_gen n) ↔ 1 ≤ v ∧ v ≤ n := by
  rw [genSeq_numbers_gen]
  simp only [List.mem_map, List.mem_range]
  constructor
  · rintro ⟨i, hi, rfl⟩
    omega
  · rintro ⟨h1, h2⟩
    exact ⟨(v - 1).toNat, by omega, by omega⟩

/-! ## The step relation and iterated requests. -/

/-- `genNext` realizes the transition relation. -/
lemma step_genNext (g : Gen) : Step g (genNext g) := by
  by_cases hd : g.done
  · have hd' : g.done = true := by simpa using hd
    simpa [genNext, hd'] using Step.finished g hd'
  · have hd' : g.done = false := by simpa using hd
    by_cases hle : g.num ≤ g.n
    · simpa [genNext, hd', hle] using Step.yield g hd' hle
    · simpa [genNext, hd', hle] using Step.exhaust g hd' hle

/-- The transition relation is deterministic: a state has exactly one
possible outcome of a `next()` request. -/
lemma step_deterministic {g : Gen} {r₁ r₂ : List String × Option Int × Gen}
    (h₁ : Step g r₁) (h₂ : Step g r₂) : r₁ = r₂ := by
  cases h₁ <;> cases h₂ <;> simp_all

/-- A run recorded by the relation can only be the one `iterateGen`
computes. -/
lemma runN_eq_iterateGen {g : Gen} {k : Nat} {o : List String × List Int × Gen}
    (h : RunN g k o) : o = iterateGen g k := by
  induction h with
  | zero g => rfl
  | @succYield g g' g'' ps qs v vs k hs hr ih =>
    have hg : genNext g = (ps, some v, g') := step_deterministic (step_genNext g) hs
    simp only [iterateGen, hg, ← ih]
  | @succNone g g' g'' ps qs vs k hs hr ih =>
    have hg : genNext g = (ps, none, g') := step_deterministic (step_genNext g) hs
    simp only [iterateGen, hg, ← ih]

/-- `iterateGen` is a run of the transition relation. -/
lemma runN_iterateGen (k : Nat) (g : Gen) : RunN g k (iterateGen g k) := by
  induction k generalizing g with
  | zero => exact RunN.zero g
  | succ k ih =>
    have hstep := step_genNext g
    by_cases hd : g.done
    · have hd' : g.done = true := by simpa using hd
      simpa [iterateGen, genNext, hd'] using
        RunN.succNone (g := g) (by simpa [genNext, hd'] using hstep) (ih g)
    · have hd' : g.done = false := by simpa using hd
      by_cases hle : g.num ≤ g.n
      · simpa [iterateGen, genNext, hd', hle] using
          RunN.succYield (g := g) (by simpa [genNext, hd', hle] using hstep)
            (ih { g with num := g.num + 1 })
      · simpa [iterateGen, genNext, hd', hle] using
          RunN.succNone (g := g) (by simpa [genNext, hd', hle] using hstep)
            (ih { g with done := true })

/-- A returned generator stays returned: further requests print nothing,
yield nothing, and leave the state unchanged. -/
lemma iterateGen_done {g : Gen} (hd : g.done = true) (k : Nat) :
    iterateGen g k = ([], [], g) := by
  induction k with
  | zero => rfl
  | succ k ih => simp [iterateGen, genNext, hd, ih]

/-- When a request signals exhaustion, the state it leaves is returned. -/
lemma genNext_none_done {g : Gen} (h : (genNext g).2.1 = none) :
    (genNext g).2.2.done = true := by
  by_cases hd : g.done
  · have hd' : g.done = true := by simpa using hd
    simp [genNext, hd']
  · have hd' : g.done = false := by simpa using hd
    by_cases hle : g.num ≤ g.n
    · simp [genNext, hd', hle] at h
    · simp [genNext, hd', hle]

/-- Each request prints exactly the yielding lines of the values it
yields: one line per value, nothing on exhaustion. -/
lemma iterateGen_prints (k : Nat) (g : Gen) :
    (iterateGen g k).1 = ((iterateGen g k).2.1).map yieldLine := by
  induction k generalizing g with
  | zero => rfl
  | succ k ih =>
    by_cases hd : g.done
    · have hd' : g.done = true := by simpa using hd
      simp [iterateGen, genNext, hd', ih]
    · have hd' : g.done = false := by simpa using hd
      by_cases hle : g.num ≤ g.n
      · simp [iterateGen, genNext, hd', hle, ih]
      · simp [iterateGen, genNext, hd', hle, ih]

/-- State reached after one more request, peeled from the front. -/
lemma iterateGen_state_succ (g : Gen) (k : Nat) :
    (iterateGen g (k + 1)).2.2 = (iterateGen (genNext g).2.2 k).2.2 := by
  rcases hg : genNext g with ⟨ps, r, g'⟩
  rcases hi : iterateGen g' k with ⟨qs, vs, g''⟩
  cases r <;> simp [iterateGen, hg, hi]

/-- The state invariant of the generator for a non-negative bound:
the bound is never mutated, the cursor stays in `[1, n + 1]`, and the
body returns only once the cursor has passed the bound. -/
def GoodState (n : Int) (g : Gen) : Prop :=
  g.n = n ∧ 1 ≤ g.num ∧ g.num ≤ n + 1 ∧ (g.done = true → n < g.num)

lemma goodState_init {n : Int} (h : 0 ≤ n) : GoodState n (numbers_gen n) := by
  refine ⟨rfl, ?_, ?_, ?_⟩
  · show (1 : Int) ≤ 1
    omega
  · show (1 : Int) ≤ n + 1
    omega
  · intro hd
    exact absurd hd (by simp [numbers_gen])

lemma goodState_step {n : Int} {g : Gen} (hg : GoodState n g) :
    GoodState n (genNext g).2.2 := by
  obtain ⟨hn, h1, h2, h3⟩ := hg
  by_cases hd : g.done
  · have hd' : g.done = true := by simpa using hd
    simp only [genNext, hd', if_true]
    exact ⟨hn, h1, h2, h3⟩
  · have hd' : g.done = false := by simpa using hd
    by_cases hle : g.num ≤ g.n
    · simp only [genNext, hd', Bool.false_eq_true, if_false, hle, if_true]
      refine ⟨hn, ?_, ?_, ?_⟩
      · show (1 : Int) ≤ g.num + 1
        omega
      · show g.num + 1 ≤ n + 1
        omega
      · intro hdd
        exact absurd hdd (by simp [hd'])
    · simp only [genNext, hd', Bool.false_eq_true, if_false, hle, if_false]
      refine ⟨hn, h1, h2, fun _ => ?_⟩
      show n < g.num
      omega

lemma goodState_iterate {n : Int} (h : 0 ≤ n) (k : Nat) :
    GoodState n (iterateGen (numbers_gen n) k).2.2 := by
  suffices H : ∀ (k : Nat) (g : Gen), GoodState n g → GoodState n (iterateGen g k).2.2 from
    H k (numbers_gen n) (goodState_init h)
  intro k
  induction k with
  | zero => exact fun g hg => hg
  | succ k ih =>
    intro g hg
    rw [iterateGen_state_succ]
    exact ih _ (goodState_step hg)

/-- Values yielded by iterating a fresh producer to exhaustion: any run
of at least `remaining g` requests collects exactly `genSeq g`. -/
lemma iterateGen_values (k : Nat) (g : Gen) (h : remaining g ≤ k) :
    (iterateGen g k).2.1 = genSeq g := by
  induction k generalizing g with
  | zero =>
    by_cases hd : g.done
    · have hd' : g.done = true := by simpa using hd
      simp [iterateGen, genSeq, hd']
    · have hd' : g.done = false := by simpa using hd
      have h0 : remaining g = 0 := by omega
      simp [iterateGen, genSeq, hd', h0, countUp]
  | succ k ih =>
    by_cases hd : g.done
    · have hd' : g.done = true := by simpa using hd
      simp [iterateGen_done hd', genSeq, hd']
    · have hd' : g.done = false := by simpa using hd
      by_cases hle : g.num ≤ g.n
      · have hrem : remaining { n := g.n, num := g.num + 1, done := false } ≤ k := by
          simp only [remaining] at h ⊢
          omega
        rw [genSeq_genNext g]
        simp [iterateGen, genNext, hd', hle, ih _ hrem]
      · have hdone : ({ g with done := true } : Gen).done = true := rfl
        rw [genSeq_genNext g]
        simp [iterateGen, genNext, hd', hle, iterateGen_done hdone]

/-! ## The claims. -/

/-- C1: for every integer `n ≥ 1`, iterating a fresh generator
`numbers_gen(n)` to exhaustion (any number of requests that reaches it)
yields exactly the values `1, 2, ..., n`, in strictly ascending order,
each value exactly once. -/
theorem numbers_gen_yields_one_to_n (n : Int) (h : 1 ≤ n) :
    (∀ k : Nat, n.toNat ≤ k →
        (iterateGen (numbers_gen n) k).2.1 = genSeq (numbers_gen n)) ∧
    (genSeq (numbers_gen n)).Sorted (· < ·) ∧
    (genSeq (numbers_gen n)).Nodup ∧
    (∀ v : Int, v ∈ genSeq (numbers_gen n) ↔ 1 ≤ v ∧ v ≤ n) := by
  have hrem : remaining (numbers_gen n) = n.toNat := by
    simp only [remaining, numbers_gen]
    omega
  refine ⟨fun k hk => iterateGen_values k _ (by omega), ?_, ?_, fun v => mem_genSeq n v⟩
  · rw [genSeq_numbers_gen]
    exact List.Pairwise.map _ (fun a b hab => by omega) (List.pairwise_lt_range n.toNat)
  · rw [genSeq_numbers_gen]
    exact (List.nodup_range n.toNat).map (fun a b hab => by omega)

theorem numbers_gen_yields_one_to_n_witness :
    (1 : Int) ≤ 3 ∧ (iterateGen (numbers_gen 3) 5).2.1 = genSeq (numbers_gen 3) :=
  ⟨by decide, (numbers_gen_yields_one_to_n 3 (by decide)).1 5 (by decide)⟩

/-- C2: running the program (driver `main` with `n = 20`) writes to
standard output exactly the three lines `yielding number: v`,
`number received: v`, blank, for `v = 1` through `20` in ascending order,
with no other output.  (The embedding of the run is a total function with
no error case, matching the source, which has no failing operation: the
process terminates normally, hence with exit status 0.) -/
theorem main_output_exact : mainOutput =
    ["yielding number: 1", "number received: 1", "", "yielding number: 2", "number received: 2", "",
     "yielding number: 3", "number received: 3", "", "yielding number: 4", "number received: 4", "",
     "yielding number: 5", "number received: 5", "", "yielding number: 6", "number received: 6", "",
     "yielding number: 7", "number received: 7", "", "yielding number: 8", "number received: 8", "",
     "yielding number: 9", "number received: 9", "", "yielding number: 10", "number received: 10", "",
     "yielding number: 11", "number received: 11", "", "yielding number: 12", "number received: 12", "",
     "yielding number: 13", "number received: 13", "", "yielding number: 14", "number received: 14", "",
     "yielding number: 15", "number received: 15", "", "yielding number: 16", "number received: 16", "",
     "yielding number: 17", "number received: 17", "", "yielding number: 18", "number received: 18", "",
     "yielding number: 19", "number received: 19", "", "yielding number: 20", "number received: 20", ""] := by
  rfl

/-- C3: for every integer `n ≤ 0`, a producer constructed with bound `n`
yields zero values; the first request signals exhaustion (the `none`
result, Python's normal `StopIteration`), printing nothing — the model
has no error case, matching the source, which has none. -/
theorem numbers_gen_nonpos_empty (n : Int) (h : n ≤ 0) :
    genSeq (numbers_gen n) = [] ∧
    genNext (numbers_gen n) = ([], none, { n := n, num := 1, done := true }) := by
  constructor
  · rw [genSeq_numbers_gen]
    have h0 : n.toNat = 0 := by omega
    simp [h0]
  · have h1 : ¬ (numbers_gen n).num ≤ (numbers_gen n).n := by
      show ¬ (1 : Int) ≤ n
      omega
    simp [genNext, numbers_gen] at h1 ⊢
    omega

theorem numbers_gen_nonpos_empty_witness :
    (0 : Int) ≤ 0 ∧ (genSeq (numbers_gen 0) = [] ∧
      genNext (numbers_gen 0) = ([], none, { n := 0, num := 1, done := true })) :=
  ⟨by decide, numbers_gen_nonpos_empty 0 (by decide)⟩

/-- C4: for every value `v` produced by `numbers_gen`, the notification
`yielding number: {v}` appears in the trace strictly before the value is
handed to the consumer, and hence before the driver's
`number received: {v}` line (the three events occur in this order as a
sublist of the trace, so at strictly increasing positions). -/
theorem yield_notification_precedes_handoff (n v : Int)
    (h : Ev.handoff v ∈ drive (numbers_gen n)) :
    List.Sublist [Ev.print (yieldLine v), Ev.handoff v, Ev.print (recvLine v)]
      (drive (numbers_gen n)) := by
  rw [drive_eq_flatten] at h ⊢
  obtain ⟨l, hl, hvl⟩ := List.mem_flatten.mp h
  obtain ⟨u, hu, rfl⟩ := List.mem_map.mp hl
  have huv : u = v := by
    simp only [driveBlock, List.mem_cons, List.not_mem_nil, or_false] at hvl
    rcases hvl with h1 | h1 | h1 | h1 <;> simp_all
  subst huv
  have hsub : List.Sublist [Ev.print (yieldLine u), Ev.handoff u, Ev.print (recvLine u)]
      (driveBlock u) :=
    List.sublist_append_left
      [Ev.print (yieldLine u), Ev.handoff u, Ev.print (recvLine u)] [Ev.print ""]
  exact hsub.trans (List.sublist_flatten_of_mem hl)

theorem yield_notification_precedes_handoff_witness :
    Ev.handoff 2 ∈ drive (numbers_gen 3) ∧
      List.Sublist [Ev.print (yieldLine 2), Ev.handoff 2, Ev.print (recvLine 2)]
        (drive (numbers_gen 3)) :=
  ⟨by decide, yield_notification_precedes_handoff 3 2 (by decide)⟩

/-- C5: once a request has signalled exhaustion (`none`), the producer is
in a terminal state: any number of further requests prints nothing, yields
nothing, and leaves the state unchanged — no wrap-around, restart, or
repeated value. -/
theorem exhausted_is_terminal (g : Gen) (k : Nat) (h : (genNext g).2.1 = none) :
    iterateGen (genNext g).2.2 k = ([], [], (genNext g).2.2) :=
  iterateGen_done (genNext_none_done h) k

theorem exhausted_is_terminal_witness :
    (genNext (numbers_gen 0)).2.1 = none ∧
      iterateGen (genNext (numbers_gen 0)).2.2 4 = ([], [], (genNext (numbers_gen 0)).2.2) :=
  ⟨by decide, exhausted_is_terminal (numbers_gen 0) 4 (by decide)⟩

/-- C6, as stated, is false for negative bounds: the fresh producer
`numbers_gen(-1)` is at a suspension point (awaiting its first request)
with cursor `1`, and `1 ≤ 1 ≤ (-1) + 1 = 0` fails. -/
theorem cursor_invariant_counterexample :
    ¬ (1 ≤ (numbers_gen (-1)).num ∧ (numbers_gen (-1)).num ≤ (-1) + 1) := by
  decide

/-- C6 (amended to non-negative bounds, the constraint the construction
contract itself imposes): for every producer constructed with bound
`n ≥ 0`, at every suspension point — the state after any number of
requests — the cursor satisfies `1 ≤ current ≤ n + 1`, and the sequence
is exhausted (the next request yields nothing) exactly when
`current > n`. -/
theorem cursor_invariant (n : Int) (h : 0 ≤ n) (k : Nat) :
    1 ≤ ((iterateGen (numbers_gen n) k).2.2).num ∧
    ((iterateGen (numbers_gen n) k).2.2).num ≤ n + 1 ∧
    ((genNext ((iterateGen (numbers_gen n) k).2.2)).2.1 = none ↔
      n < ((iterateGen (numbers_gen n) k).2.2).num) := by
  obtain ⟨hn, h1, h2, h3⟩ := goodState_iterate h k
  refine ⟨h1, h2, ?_⟩
  set g := (iterateGen (numbers_gen n) k).2.2 with hg
  by_cases hd : g.done
  · have hd' : g.done = true := by simpa using hd
    constructor
    · intro _
      exact h3 hd'
    · intro _
      simp [genNext, hd']
  · have hd' : g.done = false := by simpa using hd
    by_cases hle : g.num ≤ g.n
    · simp only [genNext, hd', Bool.false_eq_true, if_false, hle, if_true]
      constructor
      · intro hc
        simp at hc
      · intro hc
        omega
    · simp only [genNext, hd', Bool.false_eq_true, if_false, hle, if_false]
      constructor
      · intro _
        omega
      · intro _
        trivial

theorem cursor_invariant_witness :
    (0 : Int) ≤ 2 ∧
      (1 ≤ ((iterateGen (numbers_gen 2) 1).2.2).num ∧
       ((iterateGen (numbers_gen 2) 1).2.2).num ≤ 2 + 1 ∧
       ((genNext ((iterateGen (numbers_gen 2) 1).2.2)).2.1 = none ↔
         2 < ((iterateGen (numbers_gen 2) 1).2.2).num)) :=
  ⟨by decide, cursor_invariant 2 (by decide) 1⟩

/-- C7: the trace of the driver is exactly one block per produced value —
the generator's yielding line, the hand-off, then the driver's
`number received: {v}` line followed by a blank line — and nothing more,
so after the sequence is exhausted the driver emits no further output; in
particular each received value `v` is reported unchanged, immediately
after its hand-off. -/
theorem driver_reports_each_value (n : Int) :
    drive (numbers_gen n) = ((genSeq (numbers_gen n)).map driveBlock).flatten ∧
    ∀ v : Int, Ev.handoff v ∈ drive (numbers_gen n) →
      List.Sublist [Ev.handoff v, Ev.print (recvLine v), Ev.print ""]
        (drive (numbers_gen n)) := by
  refine ⟨drive_eq_flatten _, fun v hv => ?_⟩
  rw [drive_eq_flatten] at hv ⊢
  obtain ⟨l, hl, hvl⟩ := List.mem_flatten.mp hv
  obtain ⟨u, hu, rfl⟩ := List.mem_map.mp hl
  have huv : u = v := by
    simp only [driveBlock, List.mem_cons, List.not_mem_nil, or_false] at hvl
    rcases hvl with h1 | h1 | h1 | h1 <;> simp_all
  subst huv
  have hsub : List.Sublist [Ev.handoff u, Ev.print (recvLine u), Ev.print ""]
      (driveBlock u) :=
    List.sublist_cons_self (Ev.print (yieldLine u))
      [Ev.handoff u, Ev.print (recvLine u), Ev.print ""]
  exact hsub.trans (List.sublist_flatten_of_mem hl)

theorem driver_reports_each_value_witness :
    Ev.handoff 2 ∈ drive (numbers_gen 3) ∧
      List.Sublist [Ev.handoff 2, Ev.print (recvLine 2), Ev.print ""]
        (drive (numbers_gen 3)) :=
  ⟨by decide, (driver_reports_each_value 3).2 2 (by decide)⟩

/-- C8: the pipeline is deterministic.  Runs are modelled by the
transition relation `Step`/`RunN`; any two complete records of the same
number of requests from the same state agree on every printed line, every
yielded value and the final state, and `iterateGen` realizes such a
record, so two runs of the producer-driver pipeline with the same bound
produce identical value sequences and identical output traces. -/
theorem pipeline_deterministic :
    (∀ (g : Gen) (k : Nat) (o₁ o₂ : List String × List Int × Gen),
        RunN g k o₁ → RunN g k o₂ → o₁ = o₂) ∧
    (∀ (g : Gen) (k : Nat), RunN g k (iterateGen g k)) := by
  constructor
  · intro g k o₁ o₂ h₁ h₂
    rw [runN_eq_iterateGen h₁, runN_eq_iterateGen h₂]
  · intro g k
    exact runN_iterateGen k g

theorem pipeline_deterministic_witness :
    ([yieldLine 1], [1], ({ n := 1, num := 2, done := true } : Gen)) =
      iterateGen (numbers_gen 1) 2 :=
  pipeline_deterministic.1 (numbers_gen 1) 2 _ _
    (RunN.succYield (Step.yield (numbers_gen 1) rfl (by decide))
      (RunN.succNone (Step.exhaust { n := 1, num := 2, done := false } rfl (by decide))
        (RunN.zero _)))
    (pipeline_deterministic.2 (numbers_gen 1) 2)

/-- C9: constructing the producer alone has no observable side effect:
after zero requests nothing has been printed (`numbers_gen` is a pure
state constructor — calling the generator function runs none of the
body), and the first `yielding number: 1` line appears exactly when the
consumer requests the first value. -/
theorem construction_silent (n : Int) :
    (iterateGen (numbers_gen n) 0).1 = [] ∧
    (1 ≤ n → (iterateGen (numbers_gen n) 1).1 = [yieldLine 1]) := by
  refine ⟨rfl, fun h => ?_⟩
  simp [iterateGen, genNext, numbers_gen, h]

theorem construction_silent_witness :
    (1 : Int) ≤ 3 ∧ (iterateGen (numbers_gen 3) 1).1 = [yieldLine 1] :=
  ⟨by decide, (construction_silent 3).2 (by decide)⟩

/-- C10: exactly one `yielding number: {k}` notification is printed per
value actually produced — over any number of requests, from any state,
the printed lines are precisely the yielded values' notification lines,
in order — and the request that discovers exhaustion prints nothing. -/
theorem one_yield_line_per_value (g : Gen) (k : Nat) :
    (iterateGen g k).1 = ((iterateGen g k).2.1).map yieldLine ∧
    ((genNext g).2.1 = none → (genNext g).1 = []) := by
  refine ⟨iterateGen_prints k g, fun h => ?_⟩
  by_cases hd : g.done
  · have hd' : g.done = true := by simpa using hd
    simp [genNext, hd']
  · have hd' : g.done = false := by simpa using hd
    by_cases hle : g.num ≤ g.n
    · simp [genNext, hd', hle] at h
    · simp [genNext, hd', hle]

theorem one_yield_line_per_value_witness :
    (genNext (numbers_gen 0)).2.1 = none ∧ (genNext (numbers_gen 0)).1 = [] :=
  ⟨by decide, (one_yield_line_per_value (numbers_gen 0) 2).2 (by decide)⟩
